import Mathlib

/-
Verification of the cache simulator (cache.c, cachesim.c).

The C sources are shallowly embedded below.  Machine integers
(unsigned int, 32 bits) are modelled as Nat; reductions modulo 2^32 are
written explicitly at the points where the C arithmetic can wrap.  The
process-terminating failure exit(1) inside handle_miss is modelled by
returning Except.error.  Memory that the C code leaves uninitialized
(the lru_value field of freshly malloc-ed cache blocks) is modelled by
an explicit garbage parameter threaded into construction, so theorems
quantify over every possible initial content of that field.
-/

namespace CacheSim

/-- Modulus of the 32-bit unsigned int arithmetic used by the C code. -/
def UINT_MOD : Nat := 2 ^ 32

/-- struct address_info (cache_structs.h). -/
structure address_info where
  address_width : Nat
  offset_width : Nat
  index_width : Nat
  tag_width : Nat
  deriving DecidableEq

/-- struct cache_perf (cache_structs.h). -/
structure cache_perf where
  instruction_reference_count : Nat
  instruction_miss_count : Nat
  data_read_reference_count : Nat
  data_read_miss_count : Nat
  data_write_reference_count : Nat
  data_write_miss_count : Nat
  deriving DecidableEq

/-- struct cache_block (cache_structs.h). -/
structure cache_block where
  valid : Bool
  dirty : Bool
  lru_value : Nat
  tag : Nat
  deriving DecidableEq

/-- enum REFERENCE_TYPE (trace_file_parser.h). -/
inductive REFERENCE_TYPE where
  | INSTRUCTION
  | DATA_READ
  | DATA_WRITE
  deriving DecidableEq

/-- struct memory_reference (trace_file_parser.h). -/
structure memory_reference where
  address : Nat
  type : REFERENCE_TYPE
  deriving DecidableEq

/-- struct cache (cache_structs.h).  The blocks pointer array becomes a
list of number_of_sets sets, each a list of associativity blocks. -/
structure cache where
  size : Nat
  associativity : Nat
  number_of_sets : Nat
  block_size : Nat
  addr_info : address_info
  blocks : List (List cache_block)
  perf : cache_perf
  deriving DecidableEq

/-- In-place update of one element of a list, used to model assignments
through the blocks arrays. -/
def modifyAt {α : Type} : List α → Nat → (α → α) → List α
  | [], _, _ => []
  | a :: l, 0, f => f a :: l
  | a :: l, n + 1, f => a :: modifyAt l n f

/-- is_power_of_two (cache.c): counts the set bits among the 32 bits of
the unsigned int argument and tests whether exactly one is set. -/
def is_power_of_two (n : Nat) : Bool :=
  ((List.range 32).countP (fun i => (n >>> i) &&& 1 == 1)) == 1

/-- log_two (cache.c): -1 when the argument is not a power of two,
otherwise the position of the first (and only) set bit, found by the
32-iteration scan of the C loop. -/
def log_two (n : Nat) : Int :=
  if !is_power_of_two n then -1
  else
    match (List.range 32).find? (fun i => (n >>> i) &&& 1 == 1) with
    | some i => (i : Int)
    | none => -1

/-- The machine width computed by determine_address_widths as
sizeof(void*) << 3.  The simulator is built for an LP64 platform with
8-byte pointers, so this is 64. -/
def machine_width : Nat := 64

/-- determine_address_widths (cache.c), as a function of the two cache
fields it reads.  The C code zeroes the four fields first and fills in
each one only when the corresponding log_two call did not fail.  The
tag width is the unsigned 32-bit value of width - offset_width -
index_width; both widths are at most 31 here, so adding two multiples
of the modulus before subtracting reproduces the unsigned semantics. -/
def determine_address_widths (block_size number_of_sets : Nat) : address_info :=
  let width := machine_width
  let ow := log_two block_size
  let iw := log_two number_of_sets
  { address_width := if ow != -1 && iw != -1 then width else 0
    offset_width := if ow != -1 then ow.toNat else 0
    index_width := if iw != -1 then iw.toNat else 0
    tag_width :=
      if ow != -1 && iw != -1 then
        (width + 2 * UINT_MOD - ow.toNat - iw.toNat) % UINT_MOD
      else 0 }

/-- One freshly allocated cache block: create_cache_struct assigns
valid, dirty and tag but never writes lru_value, so that field keeps
whatever garbage malloc returned; g supplies that garbage. -/
def initial_block (g : Nat → Nat → Nat) (i j : Nat) : cache_block :=
  { valid := false, dirty := false, lru_value := g i j, tag := 0 }

/-- create_cache_struct (cache.c).  The product associativity *
block_size is the 32-bit unsigned product.  When that product is 0 the
C division faults and no cache is produced; Nat division by 0 yields 0
here, which lands in the same number_of_sets == 0 failure branch, so in
both readings no cache is produced.  The malloc calls are assumed to
succeed. -/
def create_cache_struct (size associativity block_size : Nat)
    (g : Nat → Nat → Nat) : Option cache :=
  if !is_power_of_two block_size then none
  else
    let number_of_sets := size / ((associativity * block_size) % UINT_MOD)
    if number_of_sets == 0 then none
    else if !is_power_of_two number_of_sets then none
    else some
      { size := size
        associativity := associativity
        block_size := block_size
        number_of_sets := number_of_sets
        addr_info := determine_address_widths block_size number_of_sets
        blocks := (List.range number_of_sets).map (fun i =>
          (List.range associativity).map (fun j => initial_block g i j))
        perf := ⟨0, 0, 0, 0, 0, 0⟩ }

/-- is_miss (cache.c): scans the set selected by index for a valid
block whose tag matches. -/
def is_miss (tag index : Nat) (c : cache) : Bool :=
  !((c.blocks.getD index []).any (fun b => b.tag == tag && b.valid))

/-- The three assignments handle_miss performs on the selected block. -/
def install_block (tag : Nat) (write : Bool) (b : cache_block) : cache_block :=
  { b with valid := true, dirty := write, tag := tag }

/-- handle_miss (cache.c): for any associativity other than 1 it prints
an error and calls exit(1), modelled as Except.error; otherwise it
overwrites block 0 of the indexed set. -/
def handle_miss (tag index : Nat) (write : Bool) (c : cache) :
    Except Unit cache :=
  if c.associativity != 1 then Except.error ()
  else Except.ok
    { c with blocks :=
        modifyAt c.blocks index (fun s => modifyAt s 0 (install_block tag write)) }

/-- The first loop of update_lru_info (cache.c): scanning the set with
running index i and accumulator acc (the C block_index variable, which
starts at 0).  Finding a matching block whose lru_value is 0 returns
from the function early, modelled as none; otherwise the scan finishes
with the saved block index. -/
def scan_lru (tag : Nat) : List cache_block → Nat → Nat → Option Nat
  | [], _, acc => some acc
  | b :: l, i, acc =>
    if b.valid && b.tag == tag then
      if b.lru_value == 0 then none
      else scan_lru tag l (i + 1) i
    else scan_lru tag l (i + 1) acc

/-- The second loop of update_lru_info (cache.c): the block at
block_index gets lru_value 0, every other block in the set has its
lru_value incremented with 32-bit unsigned wrap-around. -/
def touch_set (block_index : Nat) : Nat → List cache_block → List cache_block
  | _, [] => []
  | i, b :: l =>
    (if i == block_index then { b with lru_value := 0 }
     else { b with lru_value := (b.lru_value + 1) % UINT_MOD }) ::
      touch_set block_index (i + 1) l

/-- update_lru_info (cache.c). -/
def update_lru_info (tag index : Nat) (c : cache) : cache :=
  match scan_lru tag (c.blocks.getD index []) 0 0 with
  | none => c
  | some block_index =>
      { c with blocks :=
          modifyAt c.blocks index (fun s => touch_set block_index 0 s) }

/-- get_index_from_address (cache.c).  The mask (1 << index_width) - 1
is an unsigned int; for every constructed cache index_width is at most
31, so the shift stays in range and the reduction is the identity. -/
def get_index_from_address (address : Nat) (c : cache) : Nat :=
  let mask := ((1 <<< c.addr_info.index_width) - 1) % UINT_MOD
  (address >>> c.addr_info.offset_width) &&& mask

/-- get_tag_from_address (cache.c). -/
def get_tag_from_address (address : Nat) (c : cache) : Nat :=
  address >>> (c.addr_info.offset_width + c.addr_info.index_width)

/-- The miss-counter switch of do_reference (cache.c). -/
def bump_miss_count : REFERENCE_TYPE → cache_perf → cache_perf
  | .INSTRUCTION, p =>
      { p with instruction_miss_count := (p.instruction_miss_count + 1) % UINT_MOD }
  | .DATA_READ, p =>
      { p with data_read_miss_count := (p.data_read_miss_count + 1) % UINT_MOD }
  | .DATA_WRITE, p =>
      { p with data_write_miss_count := (p.data_write_miss_count + 1) % UINT_MOD }

/-- The reference-counter switch of do_reference (cache.c). -/
def bump_reference_count : REFERENCE_TYPE → cache_perf → cache_perf
  | .INSTRUCTION, p =>
      { p with instruction_reference_count :=
          (p.instruction_reference_count + 1) % UINT_MOD }
  | .DATA_READ, p =>
      { p with data_read_reference_count :=
          (p.data_read_reference_count + 1) % UINT_MOD }
  | .DATA_WRITE, p =>
      { p with data_write_reference_count :=
          (p.data_write_reference_count + 1) % UINT_MOD }

/-- do_reference (cache.c): decode, test for a miss, on a miss run
handle_miss (which can abort the process, propagated as error) and
count the miss, then always update the LRU data and count the
reference. -/
def do_reference (m : memory_reference) (c : cache) : Except Unit cache :=
  let tag := get_tag_from_address m.address c
  let index := get_index_from_address m.address c
  let afterMiss : Except Unit cache :=
    if is_miss tag index c then
      match handle_miss tag index (m.type == .DATA_WRITE) c with
      | Except.error e => Except.error e
      | Except.ok c1 => Except.ok { c1 with perf := bump_miss_count m.type c1.perf }
    else Except.ok c
  match afterMiss with
  | Except.error e => Except.error e
  | Except.ok c2 =>
      let c3 := update_lru_info tag index c2
      Except.ok { c3 with perf := bump_reference_count m.type c3.perf }

/-- The reference loop of main (cachesim.c): feed the decoded trace to
do_reference one reference at a time. -/
def run_refs : List memory_reference → cache → Except Unit cache
  | [], c => Except.ok c
  | m :: l, c =>
    match do_reference m c with
    | Except.error e => Except.error e
    | Except.ok c1 => run_refs l c1

/-- Possible outcomes of main (cachesim.c). -/
inductive main_result where
  /-- main returned this code from its own argument checks before
  constructing a cache. -/
  | early_error (code : Int)
  /-- create_cache_struct returned NULL and main, which never checks
  for NULL, went on to dereference the null cache pointer: every
  do_reference call reads through c, and the statistics lines read
  c->perf even when the trace is empty. -/
  | null_deref
  /-- exit(1) was reached inside handle_miss mid-simulation. -/
  | sim_exit
  /-- The simulation ran to completion and main returned code after
  printing the statistics derived from the counters. -/
  | finished (code : Int) (references misses : Nat)
  deriving DecidableEq

/-- main (cachesim.c) after the trace file has been decoded into a
reference list: the three atoi results are ints, checked positive and
checked against the size bounds; any failure returns -1 before a cache
exists.  The successful path constructs the cache, runs the trace and
prints statistics computed from the six counters. -/
def main_sim (cache_size cache_associativity cache_block_size : Int)
    (g : Nat → Nat → Nat) (trace : List memory_reference) : main_result :=
  if cache_size ≤ 0 ∨ cache_associativity ≤ 0 ∨ cache_block_size ≤ 0 ∨
      cache_size < cache_block_size ∨ cache_size < cache_associativity then
    main_result.early_error (-1)
  else
    match create_cache_struct cache_size.toNat cache_associativity.toNat
        cache_block_size.toNat g with
    | none => main_result.null_deref
    | some c =>
      match run_refs trace c with
      | Except.error _ => main_result.sim_exit
      | Except.ok c2 =>
          main_result.finished 0
            (c2.perf.instruction_reference_count +
              c2.perf.data_read_reference_count +
              c2.perf.data_write_reference_count)
            (c2.perf.instruction_miss_count +
              c2.perf.data_read_miss_count +
              c2.perf.data_write_miss_count)

/-- The valid, dirty and tag fields of a block, the parts of the block
state that update_lru_info never writes. -/
def block_core (b : cache_block) : Bool × Bool × Nat := (b.valid, b.dirty, b.tag)

/-- The references total main computes: the sum of the three
per-category reference counters. -/
def ref_sum (p : cache_perf) : Nat :=
  p.instruction_reference_count + p.data_read_reference_count +
    p.data_write_reference_count

/-- Pointwise order on the six performance counters. -/
def perf_le (p q : cache_perf) : Prop :=
  p.instruction_reference_count ≤ q.instruction_reference_count ∧
  p.instruction_miss_count ≤ q.instruction_miss_count ∧
  p.data_read_reference_count ≤ q.data_read_reference_count ∧
  p.data_read_miss_count ≤ q.data_read_miss_count ∧
  p.data_write_reference_count ≤ q.data_write_reference_count ∧
  p.data_write_miss_count ≤ q.data_write_miss_count

/-- All six performance counters are at most n. -/
def perf_bound (p : cache_perf) (n : Nat) : Prop :=
  p.instruction_reference_count ≤ n ∧ p.instruction_miss_count ≤ n ∧
  p.data_read_reference_count ≤ n ∧ p.data_read_miss_count ≤ n ∧
  p.data_write_reference_count ≤ n ∧ p.data_write_miss_count ≤ n

/-- Invariant of the reachable direct-mapped caches: every set is a
single block, and a block that holds data is the most recently used one
of its set (lru_value 0). -/
def sets_ok (c : cache) : Prop :=
  ∀ (i : Nat) (st : List cache_block), c.blocks[i]? = some st →
    st.length = 1 ∧ ∀ b ∈ st, b.valid = true → b.lru_value = 0

/-- A cache record carrying only an address-width record, used to
instantiate decoder theorems at concrete widths. -/
def widths_only_cache (b s : Nat) : cache :=
  { size := 0, associativity := 0, number_of_sets := 0, block_size := 0,
    addr_info := determine_address_widths b s, blocks := [],
    perf := ⟨0, 0, 0, 0, 0, 0⟩ }

/-- The cache produced by create_cache_struct 4 1 1 with garbage value 7
in every uninitialized lru_value field. -/
def cache4 : cache :=
  { size := 4, associativity := 1, number_of_sets := 4, block_size := 1,
    addr_info :=
      { address_width := 64, offset_width := 0, index_width := 2, tag_width := 62 },
    blocks := [[⟨false, false, 7, 0⟩], [⟨false, false, 7, 0⟩],
      [⟨false, false, 7, 0⟩], [⟨false, false, 7, 0⟩]],
    perf := ⟨0, 0, 0, 0, 0, 0⟩ }

/-- cache4 after one instruction reference to address 0 (a miss). -/
def cache4_one : cache :=
  { cache4 with
    blocks := [[⟨true, false, 0, 0⟩], [⟨false, false, 7, 0⟩],
      [⟨false, false, 7, 0⟩], [⟨false, false, 7, 0⟩]],
    perf := ⟨1, 1, 0, 0, 0, 0⟩ }

/-- cache4_one after a second instruction reference to address 0 (a
hit, which only advances the reference counter). -/
def cache4_two : cache :=
  { cache4_one with perf := ⟨2, 1, 0, 0, 0, 0⟩ }

/-! Helper lemmas about the list-update primitives of the embedding. -/

theorem modifyAt_length {α : Type} (l : List α) (i : Nat) (f : α → α) :
    (modifyAt l i f).length = l.length := by
  induction l generalizing i with
  | nil => rfl
  | cons a l ih =>
    cases i with
    | zero => simp [modifyAt]
    | succ n => simp [modifyAt, ih]

theorem getElem?_modifyAt_self {α : Type} (l : List α) (i : Nat) (f : α → α) :
    (modifyAt l i f)[i]? = l[i]?.map f := by
  induction l generalizing i with
  | nil => simp [modifyAt]
  | cons a l ih =>
    cases i with
    | zero => simp [modifyAt]
    | succ n => simpa [modifyAt] using ih n

theorem getElem?_modifyAt_ne {α : Type} (l : List α) (i j : Nat) (f : α → α)
    (h : j ≠ i) : (modifyAt l i f)[j]? = l[j]? := by
  induction l generalizing i j with
  | nil => simp [modifyAt]
  | cons a l ih =>
    cases i with
    | zero =>
      cases j with
      | zero => exact absurd rfl h
      | succ k => simp [modifyAt]
    | succ n =>
      cases j with
      | zero => simp [modifyAt]
      | succ k => simpa [modifyAt] using ih n k (fun hk => h (by simp [hk]))

theorem touch_set_length (bi : Nat) (i : Nat) (l : List cache_block) :
    (touch_set bi i l).length = l.length := by
  induction l generalizing i with
  | nil => rfl
  | cons b l ih => simp [touch_set, ih]

theorem getElem?_touch_set (bi : Nat) (l : List cache_block) (i k : Nat) :
    (touch_set bi i l)[k]? = l[k]?.map (fun b =>
      if i + k = bi then { b with lru_value := 0 }
      else { b with lru_value := (b.lru_value + 1) % UINT_MOD }) := by
  induction l generalizing i k with
  | nil => simp [touch_set]
  | cons b l ih =>
    cases k with
    | zero =>
      by_cases hib : i = bi <;> simp [touch_set, hib]
    | succ k =>
      have := ih (i + 1) k
      simp only [touch_set, List.getElem?_cons_succ, this]
      have harith : i + 1 + k = i + (k + 1) := by omega
      rw [harith]

theorem scan_lru_no_match (tag : Nat) (l : List cache_block)
    (h : ∀ b ∈ l, ¬(b.valid = true ∧ b.tag = tag)) :
    ∀ i acc, scan_lru tag l i acc = some acc := by
  induction l with
  | nil => intro i acc; rfl
  | cons b l ih =>
    intro i acc
    have hb : ¬(b.valid = true ∧ b.tag = tag) := h b (by simp)
    have hcond : (b.valid && b.tag == tag) = false := by
      by_cases hv : b.valid = true
      · simp only [hv, Bool.true_and, beq_eq_false_iff_ne, ne_eq]
        intro htag
        exact hb ⟨hv, htag⟩
      · have hv2 : b.valid = false := by simpa using hv
        simp [hv2]
    have hrec := ih (fun b hbmem => h b (by simp [hbmem])) (i + 1) acc
    simp [scan_lru, hcond, hrec]

theorem scan_lru_unique (tag : Nat) (l : List cache_block) (j : Nat)
    (blk : cache_block) (hj : l[j]? = some blk) (hv : blk.valid = true)
    (ht : blk.tag = tag)
    (huniq : ∀ k bk, l[k]? = some bk → bk.valid = true → bk.tag = tag → k = j) :
    ∀ i acc, scan_lru tag l i acc =
      if blk.lru_value = 0 then none else some (i + j) := by
  induction l generalizing j with
  | nil => simp at hj
  | cons b l ih =>
    intro i acc
    cases j with
    | zero =>
      have hb : b = blk := by simpa using hj
      subst hb
      have hcond : (b.valid && b.tag == tag) = true := by simp [hv, ht]
      have hrest : ∀ bk ∈ l, ¬(bk.valid = true ∧ bk.tag = tag) := by
        intro bk hbk hmatch
        obtain ⟨k, hk⟩ := List.mem_iff_getElem?.mp hbk
        have hk1 := huniq (k + 1) bk (by simpa using hk) hmatch.1 hmatch.2
        omega
      by_cases hlru : b.lru_value = 0
      · simp [scan_lru, hcond, hlru]
      · have hlru2 : (b.lru_value == 0) = false := by simpa using hlru
        have hnm := scan_lru_no_match tag l hrest (i + 1) i
        simp [scan_lru, hcond, hlru2, hlru, hnm]
    | succ j0 =>
      have hbnot : (b.valid && b.tag == tag) = false := by
        by_cases hbv : b.valid = true
        · simp only [hbv, Bool.true_and, beq_eq_false_iff_ne, ne_eq]
          intro htag
          have h0 := huniq 0 b (by simp) hbv htag
          omega
        · have hbv2 : b.valid = false := by simpa using hbv
          simp [hbv2]
      have hj0 : l[j0]? = some blk := by simpa using hj
      have huniq0 : ∀ k bk, l[k]? = some bk → bk.valid = true → bk.tag = tag →
          k = j0 := by
        intro k bk hk hkv hkt
        have hk1 := huniq (k + 1) bk (by simpa using hk) hkv hkt
        omega
      have hrec := ih j0 hj0 huniq0 (i + 1) acc
      have harith : i + 1 + j0 = i + (j0 + 1) := by omega
      simp [scan_lru, hbnot, hrec, harith]

/-! Structural facts about construction and the per-reference step. -/

theorem create_cache_struct_spec (size associativity block_size : Nat)
    (g : Nat → Nat → Nat) (c : cache)
    (h : create_cache_struct size associativity block_size g = some c) :
    c.size = size ∧ c.associativity = associativity ∧
    c.block_size = block_size ∧
    c.number_of_sets = size / ((associativity * block_size) % UINT_MOD) ∧
    c.addr_info = determine_address_widths block_size c.number_of_sets ∧
    c.blocks.length = c.number_of_sets ∧
    (∀ st ∈ c.blocks, st.length = associativity ∧
      ∀ blk ∈ st, blk.valid = false) ∧
    c.perf = ⟨0, 0, 0, 0, 0, 0⟩ := by
  simp only [create_cache_struct] at h
  split at h
  · exact absurd h (by simp)
  · split at h
    · exact absurd h (by simp)
    · split at h
      · exact absurd h (by simp)
      · injection h with h
        subst h
        refine ⟨rfl, rfl, rfl, rfl, rfl, by simp, ?_, rfl⟩
        intro st hst
        obtain ⟨i, hi, hst⟩ := List.mem_map.mp hst
        subst hst
        refine ⟨by simp, ?_⟩
        intro blk hblk
        obtain ⟨j, hj, hblk⟩ := List.mem_map.mp hblk
        subst hblk
        rfl

theorem update_lru_info_fields (tag index : Nat) (c : cache) :
    (update_lru_info tag index c).size = c.size ∧
    (update_lru_info tag index c).associativity = c.associativity ∧
    (update_lru_info tag index c).number_of_sets = c.number_of_sets ∧
    (update_lru_info tag index c).block_size = c.block_size ∧
    (update_lru_info tag index c).addr_info = c.addr_info ∧
    (update_lru_info tag index c).perf = c.perf := by
  unfold update_lru_info
  cases scan_lru tag (c.blocks.getD index []) 0 0 <;> simp

theorem update_lru_info_blocks_ne (tag index j : Nat) (c : cache)
    (h : j ≠ index) :
    (update_lru_info tag index c).blocks[j]? = c.blocks[j]? := by
  unfold update_lru_info
  cases scan_lru tag (c.blocks.getD index []) 0 0 with
  | none => rfl
  | some bi => simpa using getElem?_modifyAt_ne c.blocks index j _ h

theorem update_lru_info_blocks_length (tag index : Nat) (c : cache) :
    (update_lru_info tag index c).blocks.length = c.blocks.length := by
  unfold update_lru_info
  cases scan_lru tag (c.blocks.getD index []) 0 0 with
  | none => rfl
  | some bi => simpa using modifyAt_length c.blocks index _

theorem update_lru_info_core (tag index : Nat) (c : cache) (i k : Nat) :
    (((update_lru_info tag index c).blocks.getD i [])[k]?).map block_core =
      ((c.blocks.getD i [])[k]?).map block_core := by
  unfold update_lru_info
  cases scan_lru tag (c.blocks.getD index []) 0 0 with
  | none => rfl
  | some bi =>
    by_cases hi : i = index
    · subst hi
      simp only [List.getD_eq_getElem?_getD]
      rw [getElem?_modifyAt_self]
      cases hset : c.blocks[i]? with
      | none => rfl
      | some st =>
        have hred : (Option.map (fun s => touch_set bi 0 s) (some st)).getD [] =
            touch_set bi 0 st := rfl
        have hrhs : ((some st).getD [] : List cache_block) = st := rfl
        rw [hred, hrhs, getElem?_touch_set]
        cases hblk : st[k]? with
        | none => rfl
        | some b =>
          by_cases hk : k = bi <;> simp [hk, block_core]
    · simp only [List.getD_eq_getElem?_getD]
      rw [getElem?_modifyAt_ne c.blocks index i _ hi]

/-- The hit path of do_reference: no block is written, the LRU update
runs and the reference counter for the category is incremented. -/
theorem do_reference_hit (m : memory_reference) (c : cache)
    (h : is_miss (get_tag_from_address m.address c)
      (get_index_from_address m.address c) c = false) :
    do_reference m c = Except.ok
      { update_lru_info (get_tag_from_address m.address c)
          (get_index_from_address m.address c) c with
        perf := bump_reference_count m.type
          (update_lru_info (get_tag_from_address m.address c)
            (get_index_from_address m.address c) c).perf } := by
  unfold do_reference
  simp [h]

/-- The miss path of do_reference for a direct-mapped cache: block 0 of
the indexed set is overwritten, the miss counter and the reference
counter each advance, and the LRU update runs on the new contents. -/
theorem do_reference_miss_one (m : memory_reference) (c : cache)
    (h : is_miss (get_tag_from_address m.address c)
      (get_index_from_address m.address c) c = true)
    (ha : c.associativity = 1) :
    do_reference m c = Except.ok
      { update_lru_info (get_tag_from_address m.address c)
          (get_index_from_address m.address c)
          { c with
            blocks := modifyAt c.blocks (get_index_from_address m.address c)
              (fun s => modifyAt s 0
                (install_block (get_tag_from_address m.address c)
                  (m.type == .DATA_WRITE)))
            perf := bump_miss_count m.type c.perf } with
        perf := bump_reference_count m.type
          (update_lru_info (get_tag_from_address m.address c)
            (get_index_from_address m.address c)
            { c with
              blocks := modifyAt c.blocks (get_index_from_address m.address c)
                (fun s => modifyAt s 0
                  (install_block (get_tag_from_address m.address c)
                    (m.type == .DATA_WRITE)))
              perf := bump_miss_count m.type c.perf }).perf } := by
  unfold do_reference handle_miss
  simp [h, ha]

/-- The miss path of do_reference for any other associativity reaches
exit(1) inside handle_miss. -/
theorem do_reference_miss_abort (m : memory_reference) (c : cache)
    (h : is_miss (get_tag_from_address m.address c)
      (get_index_from_address m.address c) c = true)
    (ha : c.associativity ≠ 1) :
    do_reference m c = Except.error () := by
  unfold do_reference handle_miss
  simp [h, ha]

/-! Counter bookkeeping of the per-reference step. -/

theorem UINT_MOD_eq : UINT_MOD = 4294967296 := rfl

theorem do_reference_perf (m : memory_reference) (c c' : cache)
    (hok : do_reference m c = Except.ok c') :
    c'.perf = bump_reference_count m.type
      (if is_miss (get_tag_from_address m.address c)
          (get_index_from_address m.address c) c then
        bump_miss_count m.type c.perf
      else c.perf) := by
  by_cases hmiss : is_miss (get_tag_from_address m.address c)
      (get_index_from_address m.address c) c = true
  · by_cases ha : c.associativity = 1
    · rw [do_reference_miss_one m c hmiss ha] at hok
      injection hok with hok
      subst hok
      rw [if_pos hmiss]
      exact congrArg (bump_reference_count m.type)
        (update_lru_info_fields _ _ _).2.2.2.2.2
    · rw [do_reference_miss_abort m c hmiss ha] at hok
      exact absurd hok (by simp)
  · have hf : is_miss (get_tag_from_address m.address c)
        (get_index_from_address m.address c) c = false := by simpa using hmiss
    rw [do_reference_hit m c hf] at hok
    injection hok with hok
    subst hok
    rw [if_neg hmiss]
    exact congrArg (bump_reference_count m.type)
      (update_lru_info_fields _ _ _).2.2.2.2.2

theorem perf_le_trans (p q r : cache_perf) (h1 : perf_le p q)
    (h2 : perf_le q r) : perf_le p r := by
  simp only [perf_le] at *
  omega

theorem perf_bound_mono (p : cache_perf) (n n2 : Nat) (h : perf_bound p n)
    (hn : n ≤ n2) : perf_bound p n2 := by
  simp only [perf_bound] at *
  omega

theorem perf_step (m : memory_reference) (c c' : cache) (n : Nat)
    (hok : do_reference m c = Except.ok c') (hb : perf_bound c.perf n)
    (hn : n + 1 < UINT_MOD) :
    perf_le c.perf c'.perf ∧ perf_bound c'.perf (n + 1) ∧
    ref_sum c'.perf = ref_sum c.perf + 1 := by
  have hp := do_reference_perf m c c' hok
  obtain ⟨b1, b2, b3, b4, b5, b6⟩ := hb
  rw [UINT_MOD_eq] at hn
  cases hty : m.type <;> rw [hty] at hp <;>
    by_cases hmiss : is_miss (get_tag_from_address m.address c)
      (get_index_from_address m.address c) c = true <;>
    simp only [hmiss, if_true, if_false, Bool.false_eq_true, eq_self_iff_true,
      ite_true, ite_false, Bool.not_eq_true] at hp <;>
    simp only [bump_reference_count, bump_miss_count] at hp <;>
    simp only [perf_le, perf_bound, ref_sum, hp, UINT_MOD_eq] <;>
    omega

theorem perf_run (l : List memory_reference) (c c' : cache) (n : Nat)
    (hrun : run_refs l c = Except.ok c') (hb : perf_bound c.perf n)
    (hn : n + l.length < UINT_MOD) :
    perf_le c.perf c'.perf ∧ perf_bound c'.perf (n + l.length) ∧
    ref_sum c'.perf = ref_sum c.perf + l.length := by
  induction l generalizing c n with
  | nil =>
    have hc : c' = c := by
      have h0 : run_refs [] c = Except.ok c := rfl
      rw [h0] at hrun
      injection hrun with hrun
      exact hrun.symm
    subst hc
    refine ⟨by simp [perf_le], by simpa using hb, by simp⟩
  | cons m l ih =>
    have hlen : (m :: l).length = l.length + 1 := by simp
    rw [hlen] at hn
    cases hd : do_reference m c with
    | error e =>
      have hbad : run_refs (m :: l) c = Except.error e := by
        simp only [run_refs, hd]
      rw [hbad] at hrun
      exact absurd hrun (by simp)
    | ok c1 =>
      have hrun1 : run_refs l c1 = Except.ok c' := by
        have hr : run_refs (m :: l) c = run_refs l c1 := by
          simp only [run_refs, hd]
        rwa [hr] at hrun
      have hstep := perf_step m c c1 n hd hb (by omega)
      have hrest := ih c1 (n + 1) hrun1 hstep.2.1 (by omega)
      refine ⟨perf_le_trans _ _ _ hstep.1 hrest.1, ?_, ?_⟩
      · refine perf_bound_mono _ _ _ hrest.2.1 ?_
        rw [hlen]
        omega
      · rw [hrest.2.2, hstep.2.2, hlen]
        omega

theorem two_pow_32_eq : (2 : Nat) ^ 32 = 4294967296 := by norm_num

theorem run_refs_append (l1 l2 : List memory_reference) (c : cache) :
    run_refs (l1 ++ l2) c =
      match run_refs l1 c with
      | Except.error e => Except.error e
      | Except.ok c1 => run_refs l2 c1 := by
  induction l1 generalizing c with
  | nil => rfl
  | cons m l ih =>
    cases hd : do_reference m c with
    | error e => simp only [List.cons_append, run_refs, hd]
    | ok c1 =>
      simp only [List.cons_append, run_refs, hd]
      exact ih c1

/-! The recency invariant of reachable direct-mapped caches. -/

theorem update_lru_info_blocks_self_none (tag index : Nat) (c : cache)
    (h : c.blocks[index]? = none) :
    (update_lru_info tag index c).blocks[index]? = none := by
  unfold update_lru_info
  cases scan_lru tag (c.blocks.getD index []) 0 0 with
  | none => exact h
  | some bi =>
    show (modifyAt c.blocks index _)[index]? = none
    rw [getElem?_modifyAt_self, h]
    rfl

theorem update_lru_one_match (tag index : Nat) (c : cache) (b : cache_block)
    (hb : c.blocks[index]? = some [b]) (hv : b.valid = true)
    (ht : b.tag = tag) :
    (b.lru_value = 0 → update_lru_info tag index c = c) ∧
    (b.lru_value ≠ 0 →
      (update_lru_info tag index c).blocks[index]? =
        some [{ b with lru_value := 0 }]) := by
  have hgd : c.blocks.getD index [] = [b] := by
    rw [List.getD_eq_getElem?_getD, hb]
    rfl
  constructor
  · intro hz
    have hscan : scan_lru tag (c.blocks.getD index []) 0 0 = none := by
      rw [hgd]
      simp [scan_lru, hv, ht, hz]
    unfold update_lru_info
    rw [hscan]
  · intro hnz
    have hscan : scan_lru tag (c.blocks.getD index []) 0 0 = some 0 := by
      rw [hgd]
      simp [scan_lru, hv, ht, hnz]
    unfold update_lru_info
    rw [hscan]
    show (modifyAt c.blocks index (fun s => touch_set 0 0 s))[index]? =
      some [{ b with lru_value := 0 }]
    rw [getElem?_modifyAt_self, hb]
    rfl

theorem step_one_way (c : cache) (m : memory_reference)
    (ha : c.associativity = 1) (hs : sets_ok c) :
    ∃ c', do_reference m c = Except.ok c' ∧ c'.associativity = 1 ∧
      sets_ok c' := by
  set t := get_tag_from_address m.address c with htdef
  set idx := get_index_from_address m.address c with hidxdef
  set w := (m.type == REFERENCE_TYPE.DATA_WRITE) with hwdef
  by_cases hmiss : is_miss t idx c = true
  · set cmid : cache :=
      { c with
        blocks := modifyAt c.blocks idx (fun s => modifyAt s 0
          (install_block t w))
        perf := bump_miss_count m.type c.perf } with hcmiddef
    refine ⟨_, do_reference_miss_one m c hmiss ha, ?_, ?_⟩
    · exact ((update_lru_info_fields t idx cmid).2.1).trans ha
    · intro i st hist
      have hist2 : (update_lru_info t idx cmid).blocks[i]? = some st := hist
      by_cases hidx : i = idx
      · subst hidx
        cases hbase : c.blocks[idx]? with
        | none =>
          have hcmb : cmid.blocks[idx]? = none := by
            rw [hcmiddef]
            show (modifyAt c.blocks idx (fun s => modifyAt s 0
              (install_block t w)))[idx]? = none
            rw [getElem?_modifyAt_self, hbase]
            rfl
          rw [update_lru_info_blocks_self_none t idx cmid hcmb] at hist2
          exact absurd hist2 (by simp)
        | some st0 =>
          obtain ⟨hlen0, hval0⟩ := hs idx st0 hbase
          obtain ⟨b0, rfl⟩ := List.length_eq_one.mp hlen0
          have hcmb : cmid.blocks[idx]? = some [install_block t w b0] := by
            rw [hcmiddef]
            show (modifyAt c.blocks idx (fun s => modifyAt s 0
              (install_block t w)))[idx]? = some [install_block t w b0]
            rw [getElem?_modifyAt_self, hbase]
            rfl
          have hul := update_lru_one_match t idx cmid (install_block t w b0)
            hcmb (by simp [install_block]) (by simp [install_block])
          by_cases hlru0 : (install_block t w b0).lru_value = 0
          · rw [hul.1 hlru0, hcmb] at hist2
            injection hist2 with hist2
            subst hist2
            refine ⟨rfl, ?_⟩
            intro b hbm hbv
            have hbe : b = install_block t w b0 := by simpa using hbm
            subst hbe
            exact hlru0
          · rw [hul.2 hlru0] at hist2
            injection hist2 with hist2
            subst hist2
            refine ⟨rfl, ?_⟩
            intro b hbm hbv
            have hbe : b = { install_block t w b0 with lru_value := 0 } := by
              simpa using hbm
            subst hbe
            rfl
      · rw [update_lru_info_blocks_ne t idx i cmid hidx] at hist2
        have hcmb : cmid.blocks[i]? = c.blocks[i]? := by
          rw [hcmiddef]
          show (modifyAt c.blocks idx (fun s => modifyAt s 0
            (install_block t w)))[i]? = c.blocks[i]?
          exact getElem?_modifyAt_ne c.blocks idx i _ hidx
        rw [hcmb] at hist2
        exact hs i st hist2
  · have hf : is_miss t idx c = false := by simpa using hmiss
    have hany : (c.blocks.getD idx []).any
        (fun b => b.tag == t && b.valid) = true := by
      unfold is_miss at hf
      simpa using hf
    cases hbase : c.blocks[idx]? with
    | none =>
      rw [List.getD_eq_getElem?_getD, hbase] at hany
      simp at hany
    | some st0 =>
      have hgd : c.blocks.getD idx [] = st0 := by
        rw [List.getD_eq_getElem?_getD, hbase]
        rfl
      rw [hgd] at hany
      obtain ⟨hlen0, hval0⟩ := hs idx st0 hbase
      obtain ⟨b0, rfl⟩ := List.length_eq_one.mp hlen0
      obtain ⟨b, hbm, hbp⟩ := List.any_eq_true.mp hany
      have hbe : b = b0 := by simpa using hbm
      subst hbe
      obtain ⟨htag, hvalid⟩ : b.tag = t ∧ b.valid = true := by
        simpa using hbp
      have hlru0 : b.lru_value = 0 := hval0 b (by simp) hvalid
      have hul := update_lru_one_match t idx c b hbase hvalid htag
      have hu : update_lru_info t idx c = c := hul.1 hlru0
      refine ⟨_, do_reference_hit m c hf, ?_, ?_⟩
      · exact ((update_lru_info_fields t idx c).2.1).trans ha
      · intro i st hist
        have hist2 : (update_lru_info t idx c).blocks[i]? = some st := hist
        rw [hu] at hist2
        exact hs i st hist2

theorem run_one_way (l : List memory_reference) (c c' : cache)
    (ha : c.associativity = 1) (hs : sets_ok c)
    (hrun : run_refs l c = Except.ok c') :
    c'.associativity = 1 ∧ sets_ok c' := by
  induction l generalizing c with
  | nil =>
    have hc : c' = c := by
      have h0 : run_refs [] c = Except.ok c := rfl
      rw [h0] at hrun
      injection hrun with hrun
      exact hrun.symm
    subst hc
    exact ⟨ha, hs⟩
  | cons m l ih =>
    obtain ⟨c1, hd, ha1, hs1⟩ := step_one_way c m ha hs
    have hrun1 : run_refs l c1 = Except.ok c' := by
      have hr : run_refs (m :: l) c = run_refs l c1 := by
        simp only [run_refs, hd]
      rwa [hr] at hrun
    exact ih c1 ha1 hs1 hrun1

theorem run_not_one_aborts (c : cache) (m : memory_reference)
    (l : List memory_reference)
    (hinv : ∀ (i : Nat) (st : List cache_block), c.blocks[i]? = some st →
      ∀ b ∈ st, b.valid = false)
    (ha : c.associativity ≠ 1) :
    run_refs (m :: l) c = Except.error () := by
  have hany : (c.blocks.getD (get_index_from_address m.address c) []).any
      (fun b => b.tag == get_tag_from_address m.address c && b.valid) =
      false := by
    cases hbase : c.blocks[get_index_from_address m.address c]? with
    | none =>
      rw [List.getD_eq_getElem?_getD, hbase]
      rfl
    | some st0 =>
      have hgd : c.blocks.getD (get_index_from_address m.address c) [] =
          st0 := by
        rw [List.getD_eq_getElem?_getD, hbase]
        rfl
      rw [hgd]
      rw [List.any_eq_false]
      intro b hbm
      have hbv : b.valid = false :=
        hinv (get_index_from_address m.address c) st0 hbase b hbm
      simp [hbv]
  have hmiss : is_miss (get_tag_from_address m.address c)
      (get_index_from_address m.address c) c = true := by
    unfold is_miss
    rw [hany]
    rfl
  have habort := do_reference_miss_abort m c hmiss ha
  simp only [run_refs, habort]

/-! Facts about the power-of-two scan, the log scan and the width
calculator. -/


theorem bit_pred_iff (n j : Nat) :
    ((n >>> j) &&& 1 == 1) = true ↔ n.testBit j = true := by
  rw [Nat.and_one_is_mod, Nat.shiftRight_eq_div_pow, Nat.testBit_to_div_mod]
  simp

theorem is_power_of_two_spec (n : Nat) (h : is_power_of_two n = true)
    (hn : n < 2 ^ 32) :
    ∃ k : Nat, k < 32 ∧ log_two n = (k : Int) ∧ n = 2 ^ k := by
  have hc : (List.range 32).countP (fun i => (n >>> i) &&& 1 == 1) = 1 := by
    simpa [is_power_of_two] using h
  have hpos : 0 < (List.range 32).countP (fun i => (n >>> i) &&& 1 == 1) := by
    omega
  obtain ⟨a, ha, hpa⟩ := List.countP_pos_iff.mp hpos
  obtain ⟨i, hfind⟩ : ∃ i,
      (List.range 32).find? (fun i => (n >>> i) &&& 1 == 1) = some i := by
    cases hf : (List.range 32).find? (fun i => (n >>> i) &&& 1 == 1) with
    | some i => exact ⟨i, rfl⟩
    | none =>
      have hnone := List.find?_eq_none.mp hf a ha
      exact absurd hpa (by simpa using hnone)
  have hpi := List.find?_some hfind
  have hi32 : i < 32 := List.mem_range.mp (List.mem_of_find?_eq_some hfind)
  have hlog : log_two n = (i : Int) := by
    unfold log_two
    rw [h, hfind]
    simp
  have huniq : ∀ j, j < 32 → ((n >>> j) &&& 1 == 1) = true → j = i := by
    intro j hj hpj
    have hfilter :
        ((List.range 32).filter (fun i => (n >>> i) &&& 1 == 1)).length = 1 := by
      rw [← List.countP_eq_length_filter]
      exact hc
    obtain ⟨x, hx⟩ := List.length_eq_one.mp hfilter
    have hix : i ∈ [x] :=
      hx ▸ List.mem_filter.mpr ⟨List.mem_of_find?_eq_some hfind, hpi⟩
    have hjx : j ∈ [x] := hx ▸ List.mem_filter.mpr ⟨List.mem_range.mpr hj, hpj⟩
    simp at hix hjx
    omega
  refine ⟨i, hi32, hlog, ?_⟩
  apply Nat.eq_of_testBit_eq
  intro j
  by_cases hj32 : j < 32
  · by_cases hji : j = i
    · subst hji
      rw [Nat.testBit_two_pow]
      simpa using (bit_pred_iff n j).mp hpi
    · have hbit : n.testBit j = false := by
        by_contra hcon
        have htb : n.testBit j = true := by simpa using hcon
        exact hji (huniq j hj32 ((bit_pred_iff n j).mpr htb))
      rw [hbit, Nat.testBit_two_pow]
      simp
      omega
  · have hle : 2 ^ 32 ≤ 2 ^ j := Nat.pow_le_pow_right (by norm_num) (by omega)
    have h1 : n.testBit j = false := Nat.testBit_lt_two_pow (lt_of_lt_of_le hn hle)
    have h2 : (2 ^ i).testBit j = false := by
      rw [Nat.testBit_two_pow]
      simp
      omega
    rw [h1, h2]

theorem determine_address_widths_spec (b s : Nat)
    (hb : is_power_of_two b = true) (hs : is_power_of_two s = true)
    (hb32 : b < 2 ^ 32) (hs32 : s < 2 ^ 32) :
    (determine_address_widths b s).address_width = machine_width ∧
    (determine_address_widths b s).offset_width < 32 ∧
    (determine_address_widths b s).index_width < 32 ∧
    b = 2 ^ (determine_address_widths b s).offset_width ∧
    s = 2 ^ (determine_address_widths b s).index_width ∧
    (determine_address_widths b s).offset_width +
      (determine_address_widths b s).index_width +
      (determine_address_widths b s).tag_width = machine_width := by
  obtain ⟨ob, hob32, hoblog, hobpow⟩ := is_power_of_two_spec b hb hb32
  obtain ⟨oi, hoi32, hoilog, hoipow⟩ := is_power_of_two_spec s hs hs32
  have e1 : ((ob : Int) != -1) = true := by
    simp only [bne_iff_ne, ne_eq]
    omega
  have e2 : ((oi : Int) != -1) = true := by
    simp only [bne_iff_ne, ne_eq]
    omega
  have hw : determine_address_widths b s =
      { address_width := machine_width, offset_width := ob, index_width := oi,
        tag_width := (machine_width + 2 * UINT_MOD - ob - oi) % UINT_MOD } := by
    simp [determine_address_widths, hoblog, hoilog, e1, e2]
  rw [hw]
  refine ⟨rfl, hob32, hoi32, hobpow, hoipow, ?_⟩
  simp only [machine_width, UINT_MOD]
  omega

/-! Bit-level reconstruction identity behind the address decoder. -/

theorem reconstruct_bits (a ow iw : Nat) :
    ((a >>> (ow + iw)) <<< (ow + iw)) |||
      (((a >>> ow) &&& (2 ^ iw - 1)) <<< ow) ||| (a &&& (2 ^ ow - 1)) = a := by
  apply Nat.eq_of_testBit_eq
  intro j
  simp only [Nat.testBit_lor, Nat.testBit_shiftLeft, Nat.testBit_shiftRight,
    Nat.testBit_and, Nat.testBit_two_pow_sub_one]
  by_cases h1 : j < ow
  · have hd1 : decide (j ≥ ow + iw) = false := by
      simp only [decide_eq_false_iff_not]
      omega
    have hd2 : decide (j ≥ ow) = false := by
      simp only [decide_eq_false_iff_not]
      omega
    have hd3 : decide (j < ow) = true := by simp [h1]
    simp [hd1, hd2, hd3]
  · by_cases h2 : j < ow + iw
    · have hd1 : decide (j ≥ ow + iw) = false := by
        simp only [decide_eq_false_iff_not]
        omega
      have hd2 : decide (j ≥ ow) = true := by
        simp only [decide_eq_true_eq]
        omega
      have hd3 : decide (j < ow) = false := by
        simp only [decide_eq_false_iff_not]
        omega
      have hd4 : decide (j - ow < iw) = true := by
        simp only [decide_eq_true_eq]
        omega
      have hidx : ow + (j - ow) = j := by omega
      simp [hd1, hd2, hd3, hd4, hidx]
    · have hd1 : decide (j ≥ ow + iw) = true := by
        simp only [decide_eq_true_eq]
        omega
      have hd3 : decide (j < ow) = false := by
        simp only [decide_eq_false_iff_not]
        omega
      have hd4 : decide (j - ow < iw) = false := by
        simp only [decide_eq_false_iff_not]
        omega
      have hidx : ow + iw + (j - (ow + iw)) = j := by omega
      simp [hd1, hd3, hd4, hidx]

/-! Claim theorems. -/

/-- C1: the claim says handle_miss implements least-recently-used
selection for every associativity.  The code does not: on a valid
2-way cache (size 4, associativity 2, block size 1) a miss makes
handle_miss print an error and call exit(1) — modelled as Except.error —
instead of selecting and overwriting the LRU block. -/
theorem C1_handle_miss_exits_for_assoc_two :
    (create_cache_struct 4 2 1 (fun _ _ => 0)).map
      (fun c => handle_miss 0 0 false c) = some (Except.error ()) := rfl

/-- C2: create_cache_struct returns a cache iff block_size is a power
of two, the truncating quotient size / (associativity * block_size) is
at least 1, and that quotient is a power of two; otherwise no cache is
produced.  The product is the unsigned 32-bit product the code
computes; the second conjunct restates the equivalence with the plain
mathematical product whenever that product fits in 32 bits. -/
theorem C2_create_cache_iff (size associativity block_size : Nat)
    (g : Nat → Nat → Nat) :
    ((∃ c, create_cache_struct size associativity block_size g = some c) ↔
      (is_power_of_two block_size = true ∧
        1 ≤ size / ((associativity * block_size) % UINT_MOD) ∧
        is_power_of_two
          (size / ((associativity * block_size) % UINT_MOD)) = true)) ∧
    (associativity * block_size < UINT_MOD →
      ((∃ c, create_cache_struct size associativity block_size g = some c) ↔
        (is_power_of_two block_size = true ∧
          1 ≤ size / (associativity * block_size) ∧
          is_power_of_two (size / (associativity * block_size)) = true))) := by
  have hmain :
      (∃ c, create_cache_struct size associativity block_size g = some c) ↔
      (is_power_of_two block_size = true ∧
        1 ≤ size / ((associativity * block_size) % UINT_MOD) ∧
        is_power_of_two
          (size / ((associativity * block_size) % UINT_MOD)) = true) := by
    constructor
    · rintro ⟨c, hc⟩
      simp only [create_cache_struct] at hc
      split at hc
      · exact absurd hc (by simp)
      next h1 =>
        split at hc
        · exact absurd hc (by simp)
        next h2 =>
          split at hc
          · exact absurd hc (by simp)
          next h3 =>
            refine ⟨by simpa using h1, ?_, by simpa using h3⟩
            have h2n : size / ((associativity * block_size) % UINT_MOD) ≠ 0 := by
              simpa using h2
            exact Nat.one_le_iff_ne_zero.mpr h2n
    · rintro ⟨h1, h2, h3⟩
      have h1f : (!is_power_of_two block_size) = false := by simp [h1]
      have h2f : (size / ((associativity * block_size) % UINT_MOD) == 0) = false := by
        simp only [beq_eq_false_iff_ne, ne_eq]
        omega
      have h3f :
          (!is_power_of_two
            (size / ((associativity * block_size) % UINT_MOD))) = false := by
        simp [h3]
      refine ⟨{ size := size, associativity := associativity,
                block_size := block_size,
                number_of_sets :=
                  size / ((associativity * block_size) % UINT_MOD),
                addr_info := determine_address_widths block_size
                  (size / ((associativity * block_size) % UINT_MOD)),
                blocks := (List.range
                  (size / ((associativity * block_size) % UINT_MOD))).map
                    (fun i => (List.range associativity).map
                      (fun j => initial_block g i j)),
                perf := ⟨0, 0, 0, 0, 0, 0⟩ }, ?_⟩
      simp [create_cache_struct, h1f, h2f, h3f]
  refine ⟨hmain, ?_⟩
  intro hfits
  rwa [Nat.mod_eq_of_lt hfits] at hmain

theorem C2_create_cache_iff_witness :
    2 * 2 < UINT_MOD ∧
    ((∃ c, create_cache_struct 8 2 2 (fun _ _ => 0) = some c) ↔
      (is_power_of_two 2 = true ∧ 1 ≤ 8 / (2 * 2) ∧
        is_power_of_two (8 / (2 * 2)) = true)) :=
  ⟨by decide, (C2_create_cache_iff 8 2 2 (fun _ _ => 0)).2 (by decide)⟩

/-- C3: the claim says per-reference processing always succeeds and
that any inability to support associativity > 1 surfaces at
construction time, never mid-simulation.  The code violates this:
construction accepts associativity 2 (size 4, block size 1 is a valid
geometry), and the very first reference then aborts the process from
inside do_reference via exit(1) in handle_miss. -/
theorem C3_do_reference_aborts_mid_simulation :
    (create_cache_struct 4 2 1 (fun _ _ => 0)).map
      (fun c => run_refs [⟨0, REFERENCE_TYPE.DATA_READ⟩] c) =
      some (Except.error ()) := rfl

/-- C6: recombining the decoded tag, index and offset fields of an
address yields the address masked to address_width bits, for every
widths record derived from a valid geometry (block size and set count
powers of two representable in 32 bits) and every 32-bit address. -/
theorem C6_address_decode_roundtrip (b s address : Nat) (c : cache)
    (hb : is_power_of_two b = true) (hs : is_power_of_two s = true)
    (hb32 : b < 2 ^ 32) (hs32 : s < 2 ^ 32) (haddr : address < 2 ^ 32)
    (hw : c.addr_info = determine_address_widths b s) :
    (get_tag_from_address address c <<<
        (c.addr_info.offset_width + c.addr_info.index_width)) |||
      (get_index_from_address address c <<< c.addr_info.offset_width) |||
      (address &&& ((1 <<< c.addr_info.offset_width) - 1)) =
    address &&& ((1 <<< c.addr_info.address_width) - 1) := by
  obtain ⟨h1, h2, h3, h4, h5, h6⟩ :=
    determine_address_widths_spec b s hb hs hb32 hs32
  have hmask :
      ((1 <<< (determine_address_widths b s).index_width) - 1) % UINT_MOD =
        2 ^ (determine_address_widths b s).index_width - 1 := by
    rw [Nat.one_shiftLeft]
    apply Nat.mod_eq_of_lt
    have hp : 2 ^ (determine_address_widths b s).index_width ≤ 2 ^ 31 :=
      Nat.pow_le_pow_right (by norm_num) (by omega)
    simp only [UINT_MOD]
    omega
  simp only [get_tag_from_address, get_index_from_address]
  rw [hw]
  rw [hmask]
  simp only [Nat.one_shiftLeft]
  rw [h1]
  have hlt : address < 2 ^ machine_width := by
    have hle : (2 : Nat) ^ 32 ≤ 2 ^ machine_width :=
      Nat.pow_le_pow_right (by norm_num) (by simp [machine_width])
    omega
  conv_rhs => rw [Nat.and_pow_two_sub_one_eq_mod]
  rw [Nat.mod_eq_of_lt hlt]
  exact reconstruct_bits address _ _

theorem C6_address_decode_roundtrip_witness :
    (is_power_of_two 4 = true ∧ is_power_of_two 8 = true ∧
      (4 : Nat) < 2 ^ 32 ∧ (8 : Nat) < 2 ^ 32 ∧ (43981 : Nat) < 2 ^ 32 ∧
      (widths_only_cache 4 8).addr_info = determine_address_widths 4 8) ∧
    (get_tag_from_address 43981 (widths_only_cache 4 8) <<<
        ((widths_only_cache 4 8).addr_info.offset_width +
          (widths_only_cache 4 8).addr_info.index_width)) |||
      (get_index_from_address 43981 (widths_only_cache 4 8) <<<
        (widths_only_cache 4 8).addr_info.offset_width) |||
      (43981 &&& ((1 <<< (widths_only_cache 4 8).addr_info.offset_width) - 1)) =
    43981 &&& ((1 <<< (widths_only_cache 4 8).addr_info.address_width) - 1) :=
  ⟨⟨by decide, by decide, by decide, by decide, by decide, rfl⟩,
    C6_address_decode_roundtrip 4 8 43981 (widths_only_cache 4 8)
      (by decide) (by decide) (by decide) (by decide) (by decide) rfl⟩

/-- C7: the claim says address_width is the configuration constant 32.
The code instead uses the machine pointer width sizeof(void*) << 3,
which is 64 on the LP64 build this development models: the valid
geometry with block size 4 and 1 set yields address_width 64, not 32. -/
theorem C7_counterexample_address_width_not_32 :
    (create_cache_struct 4 1 4 (fun _ _ => 0)).map
      (fun c => c.addr_info.address_width) = some 64 ∧ (64 : Nat) ≠ 32 :=
  ⟨rfl, by decide⟩

/-- C7 (amended): for every valid geometry the width calculator
produces offset_width = log2(block_size) and index_width =
log2(number_of_sets), and the three widths sum exactly to
address_width; address_width however is the machine pointer width
sizeof(void*) << 3 (64 on the modelled LP64 build), not the constant
32. -/
theorem C7_width_sum (b s : Nat) (hb : is_power_of_two b = true)
    (hs : is_power_of_two s = true) (hb32 : b < 2 ^ 32) (hs32 : s < 2 ^ 32) :
    (determine_address_widths b s).offset_width +
        (determine_address_widths b s).index_width +
        (determine_address_widths b s).tag_width =
      (determine_address_widths b s).address_width ∧
    (determine_address_widths b s).address_width = machine_width ∧
    b = 2 ^ (determine_address_widths b s).offset_width ∧
    s = 2 ^ (determine_address_widths b s).index_width := by
  obtain ⟨h1, h2, h3, h4, h5, h6⟩ :=
    determine_address_widths_spec b s hb hs hb32 hs32
  exact ⟨by rw [h6, h1], h1, h4, h5⟩

theorem C7_width_sum_witness :
    (is_power_of_two 32 = true ∧ is_power_of_two 16 = true ∧
      (32 : Nat) < 2 ^ 32 ∧ (16 : Nat) < 2 ^ 32) ∧
    ((determine_address_widths 32 16).offset_width +
        (determine_address_widths 32 16).index_width +
        (determine_address_widths 32 16).tag_width =
      (determine_address_widths 32 16).address_width ∧
    (determine_address_widths 32 16).address_width = machine_width ∧
    32 = 2 ^ (determine_address_widths 32 16).offset_width ∧
    16 = 2 ^ (determine_address_widths 32 16).index_width) :=
  ⟨⟨by decide, by decide, by decide, by decide⟩,
    C7_width_sum 32 16 (by decide) (by decide) (by decide) (by decide)⟩

/-- C8: the claim says that whenever the arguments fail geometry
validation the driver reports the error, exits non-zero and halts
before any reference is processed.  The code violates this: with
arguments size 10, associativity 1, block size 2 the driver checks all
pass, create_cache_struct fails (5 sets is not a power of two) and
returns NULL, and main — which never tests the pointer — goes on to
dereference the null cache (in do_reference for a non-empty trace, and
in the statistics code even for an empty trace) instead of halting
with a non-zero code. -/
theorem C8_driver_null_deref_on_invalid_geometry :
    main_sim 10 1 2 (fun _ _ => 0) [⟨0, REFERENCE_TYPE.INSTRUCTION⟩] =
      main_result.null_deref ∧
    main_sim 10 1 2 (fun _ _ => 0) [] = main_result.null_deref :=
  ⟨rfl, rfl⟩

/-- C9: a reference that hits leaves every block's valid, dirty and tag
fields unchanged — in particular a DataWrite hit does not set the dirty
flag, which is only ever assigned inside handle_miss. -/
theorem C9_hit_preserves_block_state (m : memory_reference) (c c' : cache)
    (hhit : is_miss (get_tag_from_address m.address c)
      (get_index_from_address m.address c) c = false)
    (hok : do_reference m c = Except.ok c') :
    ∀ (i k : Nat), (((c'.blocks.getD i [])[k]?).map block_core) =
      (((c.blocks.getD i [])[k]?).map block_core) := by
  rw [do_reference_hit m c hhit] at hok
  injection hok with hok
  subst hok
  intro i k
  exact update_lru_info_core (get_tag_from_address m.address c)
    (get_index_from_address m.address c) c i k

theorem C9_hit_preserves_block_state_witness :
    ((cache4_two.blocks.getD 0 [])[0]?).map block_core =
      ((cache4_one.blocks.getD 0 [])[0]?).map block_core :=
  C9_hit_preserves_block_state ⟨0, REFERENCE_TYPE.INSTRUCTION⟩ cache4_one
    cache4_two rfl rfl 0 0

/-- C10: a processed reference only ever writes the indexed set and the
performance counters: the geometry fields, the widths record and every
other set are unchanged. -/
theorem C10_reference_frame (m : memory_reference) (c c' : cache)
    (hok : do_reference m c = Except.ok c') :
    c'.size = c.size ∧ c'.associativity = c.associativity ∧
    c'.block_size = c.block_size ∧ c'.number_of_sets = c.number_of_sets ∧
    c'.addr_info = c.addr_info ∧ c'.blocks.length = c.blocks.length ∧
    (∀ j, j ≠ get_index_from_address m.address c →
      c'.blocks[j]? = c.blocks[j]?) := by
  by_cases hmiss : is_miss (get_tag_from_address m.address c)
      (get_index_from_address m.address c) c = true
  · by_cases ha : c.associativity = 1
    · rw [do_reference_miss_one m c hmiss ha] at hok
      injection hok with hok
      subst hok
      obtain ⟨f1, f2, f3, f4, f5, f6⟩ :=
        update_lru_info_fields (get_tag_from_address m.address c)
          (get_index_from_address m.address c)
          { c with
            blocks := modifyAt c.blocks (get_index_from_address m.address c)
              (fun s => modifyAt s 0
                (install_block (get_tag_from_address m.address c)
                  (m.type == .DATA_WRITE)))
            perf := bump_miss_count m.type c.perf }
      refine ⟨f1, f2, f4, f3, f5, ?_, ?_⟩
      · exact (update_lru_info_blocks_length _ _ _).trans
          (modifyAt_length c.blocks _ _)
      · intro j hj
        exact (update_lru_info_blocks_ne _ _ j _ hj).trans
          (getElem?_modifyAt_ne c.blocks _ j _ hj)
    · rw [do_reference_miss_abort m c hmiss ha] at hok
      exact absurd hok (by simp)
  · have hf : is_miss (get_tag_from_address m.address c)
        (get_index_from_address m.address c) c = false := by
      simpa using hmiss
    rw [do_reference_hit m c hf] at hok
    injection hok with hok
    subst hok
    obtain ⟨f1, f2, f3, f4, f5, f6⟩ :=
      update_lru_info_fields (get_tag_from_address m.address c)
        (get_index_from_address m.address c) c
    refine ⟨f1, f2, f4, f3, f5, update_lru_info_blocks_length _ _ _, ?_⟩
    intro j hj
    exact update_lru_info_blocks_ne _ _ j _ hj

/-- C4: in every cache reachable from construction through successful
do_reference calls, a set holding at least one valid (hence referenced)
block has exactly one block with recency 0; and the touch step
(update_lru_info) leaves the cache unchanged when the touched block
already has recency 0, and otherwise gives the touched block recency 0
and increments every other block of the set by 1 (with the 32-bit wrap
of the unsigned increment). -/
theorem C4_recency_invariant (sz a bs : Nat) (g : Nat → Nat → Nat)
    (refs : List memory_reference) (c0 c' : cache)
    (h0 : create_cache_struct sz a bs g = some c0)
    (hrun : run_refs refs c0 = Except.ok c') :
    (∀ st ∈ c'.blocks, (∃ blk ∈ st, blk.valid = true) →
      st.countP (fun blk => blk.lru_value == 0) = 1) ∧
    (∀ (c : cache) (tag index j : Nat) (blk : cache_block),
      (c.blocks.getD index [])[j]? = some blk → blk.valid = true →
      blk.tag = tag →
      (∀ (k : Nat) (bk : cache_block), (c.blocks.getD index [])[k]? = some bk →
        bk.valid = true → bk.tag = tag → k = j) →
      ((blk.lru_value = 0 → update_lru_info tag index c = c) ∧
        (blk.lru_value ≠ 0 → ∀ (k : Nat) (bk : cache_block),
          (c.blocks.getD index [])[k]? = some bk →
          ((update_lru_info tag index c).blocks.getD index [])[k]? =
            some { bk with lru_value :=
              if k = j then 0 else (bk.lru_value + 1) % UINT_MOD }))) := by
  constructor
  · obtain ⟨hsz, hassoc, hbs, hnos, haddr, hblen, hsets, hperf⟩ :=
      create_cache_struct_spec sz a bs g c0 h0
    by_cases hone : a = 1
    · subst hone
      have hs0 : sets_ok c0 := by
        intro i st hist
        obtain ⟨hlen, hinv⟩ := hsets st (List.getElem?_mem hist)
        refine ⟨hlen, ?_⟩
        intro b hb hbv
        rw [hinv b hb] at hbv
        exact absurd hbv (by simp)
      obtain ⟨ha', hs'⟩ := run_one_way refs c0 c' hassoc hs0 hrun
      intro st hst hex
      obtain ⟨i, hi⟩ := List.mem_iff_getElem?.mp hst
      obtain ⟨hlen, hlru⟩ := hs' i st hi
      obtain ⟨b, rfl⟩ := List.length_eq_one.mp hlen
      obtain ⟨blk, hmem, hval⟩ := hex
      have hbe : blk = b := by simpa using hmem
      subst hbe
      have h0b : blk.lru_value = 0 := hlru blk (by simp) hval
      simp [List.countP_cons, h0b]
    · cases refs with
      | nil =>
        have hc : c' = c0 := by
          have hnil : run_refs [] c0 = Except.ok c0 := rfl
          rw [hnil] at hrun
          injection hrun with hrun
          exact hrun.symm
        subst hc
        intro st hst hex
        obtain ⟨blk, hmem, hval⟩ := hex
        obtain ⟨-, hinv⟩ := hsets st hst
        rw [hinv blk hmem] at hval
        exact absurd hval (by simp)
      | cons m l =>
        have hinv0 : ∀ (i : Nat) (st : List cache_block),
            c0.blocks[i]? = some st → ∀ b ∈ st, b.valid = false := by
          intro i st hist b hb
          exact (hsets st (List.getElem?_mem hist)).2 b hb
        have habort := run_not_one_aborts c0 m l hinv0 (by
          rw [hassoc]
          exact hone)
        rw [habort] at hrun
        exact absurd hrun (by simp)
  · intro c tag index j blk hj hv ht huniq
    have hscan := scan_lru_unique tag (c.blocks.getD index []) j blk hj hv ht
      huniq 0 0
    constructor
    · intro hz
      unfold update_lru_info
      rw [hscan, if_pos hz]
    · intro hnz
      have hu : update_lru_info tag index c =
          { c with blocks :=
                     modifyAt c.blocks index (fun s => touch_set (0 + j) 0 s) } := by
        unfold update_lru_info
        rw [hscan, if_neg hnz]
      intro k bk hk
      cases hbase : c.blocks[index]? with
      | none =>
        rw [List.getD_eq_getElem?_getD, hbase] at hk
        exact absurd hk (by simp)
      | some st =>
        have hgd : c.blocks.getD index [] = st := by
          rw [List.getD_eq_getElem?_getD, hbase]
          rfl
        rw [hgd] at hk
        have hnewgd : ((update_lru_info tag index c).blocks).getD index [] =
            touch_set (0 + j) 0 st := by
          rw [hu]
          show (modifyAt c.blocks index
            (fun s => touch_set (0 + j) 0 s)).getD index [] = _
          rw [List.getD_eq_getElem?_getD, getElem?_modifyAt_self, hbase]
          rfl
        rw [hnewgd, getElem?_touch_set, hk]
        by_cases hkj : k = j <;> simp [hkj]

theorem C4_recency_invariant_witness :
    ([(⟨true, false, 0, 0⟩ : cache_block)].countP
      (fun blk => blk.lru_value == 0)) = 1 :=
  (C4_recency_invariant 4 1 1 (fun _ _ => 7)
    [⟨0, REFERENCE_TYPE.INSTRUCTION⟩] cache4 cache4_one rfl rfl).1
    [⟨true, false, 0, 0⟩] (by decide)
    ⟨⟨true, false, 0, 0⟩, by decide, rfl⟩

/-- C5: each processed reference increments exactly the reference
counter of its category (with the 32-bit wrap of the unsigned
increment), increments the matching miss counter exactly when the
reference misses, and leaves the other counters unchanged; over any run
from construction of fewer than 2^32 references the three reference
counters sum to the number of references processed, and the counters
are monotonically non-decreasing along the run. -/
theorem C5_counter_updates :
    (∀ (m : memory_reference) (c c' : cache),
      do_reference m c = Except.ok c' →
      (c'.perf.instruction_reference_count =
        (if m.type = REFERENCE_TYPE.INSTRUCTION then
          (c.perf.instruction_reference_count + 1) % UINT_MOD
        else c.perf.instruction_reference_count) ∧
      c'.perf.data_read_reference_count =
        (if m.type = REFERENCE_TYPE.DATA_READ then
          (c.perf.data_read_reference_count + 1) % UINT_MOD
        else c.perf.data_read_reference_count) ∧
      c'.perf.data_write_reference_count =
        (if m.type = REFERENCE_TYPE.DATA_WRITE then
          (c.perf.data_write_reference_count + 1) % UINT_MOD
        else c.perf.data_write_reference_count) ∧
      c'.perf.instruction_miss_count =
        (if m.type = REFERENCE_TYPE.INSTRUCTION ∧
            is_miss (get_tag_from_address m.address c)
              (get_index_from_address m.address c) c = true then
          (c.perf.instruction_miss_count + 1) % UINT_MOD
        else c.perf.instruction_miss_count) ∧
      c'.perf.data_read_miss_count =
        (if m.type = REFERENCE_TYPE.DATA_READ ∧
            is_miss (get_tag_from_address m.address c)
              (get_index_from_address m.address c) c = true then
          (c.perf.data_read_miss_count + 1) % UINT_MOD
        else c.perf.data_read_miss_count) ∧
      c'.perf.data_write_miss_count =
        (if m.type = REFERENCE_TYPE.DATA_WRITE ∧
            is_miss (get_tag_from_address m.address c)
              (get_index_from_address m.address c) c = true then
          (c.perf.data_write_miss_count + 1) % UINT_MOD
        else c.perf.data_write_miss_count))) ∧
    (∀ (sz a bs : Nat) (g : Nat → Nat → Nat) (refs : List memory_reference)
      (c0 c' : cache), create_cache_struct sz a bs g = some c0 →
      run_refs refs c0 = Except.ok c' → refs.length < 2 ^ 32 →
      ref_sum c'.perf = refs.length) ∧
    (∀ (sz a bs : Nat) (g : Nat → Nat → Nat)
      (l1 l2 : List memory_reference) (c0 c1 c2 : cache),
      create_cache_struct sz a bs g = some c0 →
      run_refs l1 c0 = Except.ok c1 →
      run_refs (l1 ++ l2) c0 = Except.ok c2 →
      (l1 ++ l2).length < 2 ^ 32 →
      perf_le c1.perf c2.perf) := by
  refine ⟨?_, ?_, ?_⟩
  · intro m c c' hok
    have hp := do_reference_perf m c c' hok
    cases hty : m.type <;> rw [hty] at hp <;>
      by_cases hmiss : is_miss (get_tag_from_address m.address c)
        (get_index_from_address m.address c) c = true <;>
      simp [hp, hmiss, hty, bump_reference_count, bump_miss_count]
  · intro sz a bs g refs c0 c' h0 hrun hlen
    obtain ⟨-, -, -, -, -, -, -, hperf⟩ :=
      create_cache_struct_spec sz a bs g c0 h0
    have hb0 : perf_bound c0.perf 0 := by
      rw [hperf]
      simp [perf_bound]
    have hM : 0 + refs.length < UINT_MOD := by
      simp only [Nat.zero_add, UINT_MOD]
      exact hlen
    have hrunp := perf_run refs c0 c' 0 hrun hb0 hM
    rw [hrunp.2.2, hperf]
    simp [ref_sum]
  · intro sz a bs g l1 l2 c0 c1 c2 h0 hrun1 hrun12 hlen
    rw [run_refs_append, hrun1] at hrun12
    have hrun2 : run_refs l2 c1 = Except.ok c2 := hrun12
    obtain ⟨-, -, -, -, -, -, -, hperf⟩ :=
      create_cache_struct_spec sz a bs g c0 h0
    have hb0 : perf_bound c0.perf 0 := by
      rw [hperf]
      simp [perf_bound]
    rw [List.length_append, two_pow_32_eq] at hlen
    have hM1 : 0 + l1.length < UINT_MOD := by
      rw [UINT_MOD_eq]
      omega
    have h1 := perf_run l1 c0 c1 0 hrun1 hb0 hM1
    have hM2 : (0 + l1.length) + l2.length < UINT_MOD := by
      rw [UINT_MOD_eq]
      omega
    have h2 := perf_run l2 c1 c2 (0 + l1.length) hrun2 h1.2.1 hM2
    exact h2.1

theorem C5_counter_updates_witness :
    (cache4_one.perf.instruction_reference_count =
      (if (⟨0, REFERENCE_TYPE.INSTRUCTION⟩ : memory_reference).type =
          REFERENCE_TYPE.INSTRUCTION then
        (cache4.perf.instruction_reference_count + 1) % UINT_MOD
      else cache4.perf.instruction_reference_count)) ∧
    ref_sum cache4_one.perf = [(⟨0, REFERENCE_TYPE.INSTRUCTION⟩ :
      memory_reference)].length ∧
    perf_le cache4.perf cache4_one.perf :=
  ⟨(C5_counter_updates.1 ⟨0, REFERENCE_TYPE.INSTRUCTION⟩ cache4 cache4_one
      rfl).1,
    C5_counter_updates.2.1 4 1 1 (fun _ _ => 7)
      [⟨0, REFERENCE_TYPE.INSTRUCTION⟩] cache4 cache4_one rfl rfl (by decide),
    C5_counter_updates.2.2 4 1 1 (fun _ _ => 7) []
      [⟨0, REFERENCE_TYPE.INSTRUCTION⟩] cache4 cache4 cache4_one rfl rfl rfl
      (by decide)⟩

theorem C10_reference_frame_witness :
    cache4_one.blocks[1]? = cache4.blocks[1]? :=
  (C10_reference_frame ⟨0, REFERENCE_TYPE.INSTRUCTION⟩ cache4 cache4_one
    rfl).2.2.2.2.2.2 1 (by decide)

end CacheSim
